import Mathlib

/-!
# Hide404 — verification of the natural-language specification

A shallow embedding of the Hide404 RAG API service (Python) in Lean 4,
together with theorems settling the specification claims C1..C10.

Conventions of the embedding:
* pure Python functions become Lean functions;
* code that raises becomes `Except`-valued (the error constructor names the
  Python exception kind);
* SQLite tables become records of a column-name list plus structured rows;
  SQL statements that reference a column not in the table schema fail with
  `noSuchColumn`, as SQLite does;
* `json.dumps` / `json.loads` (the stdlib codec behind
  `utils/common.py::marshall_json` / `unmarshall_json`) are modelled by an
  executable printer/parser pair on a JSON value type, with a proved
  round-trip theorem;
* wall-clock reads (the upload controller's 2-second throttle) are modelled
  by a boolean per chunk giving the outcome of the `time() - start < 2`
  comparison, quantified over in the theorems.
-/

namespace Hide404

/-! ## Event-table model (`src/db_manager/event_manager.py`) -/

/-- A database cell value: SQLite TEXT or INTEGER, as stored by the
event manager (`event_id`/`status`/`detail` are text, `added_at` integer). -/
inductive DBVal
  | s (v : String)
  | i (v : Int)
  deriving DecidableEq, Repr

/-- One row of an event table, with the columns created by
`new_event_type`: `event_id`, `status`, `detail` (JSON text), `added_at`. -/
structure EventRow where
  event_id : String
  status : String
  detail : String
  added_at : Int
  deriving DecidableEq, Repr

/-- Column lookup by name on an event row; `none` models the column not
existing on the row shape. -/
def EventRow.getCol (r : EventRow) (col : String) : Option DBVal :=
  if col = "event_id" then some (.s r.event_id)
  else if col = "status" then some (.s r.status)
  else if col = "detail" then some (.s r.detail)
  else if col = "added_at" then some (.i r.added_at)
  else none

/-- An event table: its schema (column names) and its rows. -/
structure EventTable where
  cols : List String
  rows : List EventRow
  deriving DecidableEq, Repr

/-- Errors surfaced by the storage layer. -/
inductive SqlErr
  | noSuchColumn (col : String)
  | pkViolation
  deriving DecidableEq, Repr

/-- The column list of the table created by
`EventManager.new_event_type` (event_manager.py lines 34-44). -/
def eventTableCols : List String := ["event_id", "status", "detail", "added_at"]

/-- `new_event_type(name)`: `CREATE TABLE IF NOT EXISTS name (event_id CHAR(26)
PRIMARY KEY, status VARCHAR(16) NOT NULL, detail TEXT, added_at INTEGER
DEFAULT (strftime(...)))` — a fresh empty table with those columns. -/
def new_event_type : EventTable := ⟨eventTableCols, []⟩

/-- `DELETE FROM t WHERE col = v`: SQLite errors with "no such column" when
`col` is not in the table schema; otherwise removes the matching rows. -/
def sqlDeleteWhere (t : EventTable) (col : String) (v : DBVal) :
    Except SqlErr EventTable :=
  if col ∈ t.cols then
    .ok { t with rows := t.rows.filter (fun r => ¬ (r.getCol col = some v)) }
  else
    .error (.noSuchColumn col)

/-- The `Database.transaction` wrapper (db_manager.py lines 135-159) run
against a single table: commits the body's result on success; on error the
transaction is rolled back — the table is returned unchanged — and the
error is re-raised to the caller. -/
def transactionRun (t : EventTable) (body : EventTable → Except SqlErr EventTable) :
    EventTable × Option SqlErr :=
  match body t with
  | .ok t' => (t', none)
  | .error e => (t, some e)

/-- `EventManager.delete_event(event_type, event_id)` (event_manager.py lines
170-183): inside a transaction, executes
`DELETE FROM {event_type} WHERE file_id = ?` with the event id as value. -/
def delete_event (t : EventTable) (event_id : String) : EventTable × Option SqlErr :=
  transactionRun t (fun tb => sqlDeleteWhere tb "file_id" (.s event_id))

/-! ## Connection-pool model (`src/db_manager/db_manager.py`) -/

/-- A pooled connection: its identity and whether it is still open. -/
structure Conn where
  id : Nat
  isOpen : Bool
  deriving DecidableEq, Repr

/-- Pool state: the queue of available connections plus a counter supplying
identities for freshly opened connections. -/
structure PoolState where
  queue : List Conn
  nextId : Nat
  deriving DecidableEq, Repr

/-- `ConnectionPool._create_connection`: opens a fresh connection. -/
def create_connection (st : PoolState) : Conn × PoolState :=
  (⟨st.nextId, true⟩, { st with nextId := st.nextId + 1 })

/-- Outcome of the body run under `get_connection`: it either returns
normally or raises. -/
inductive BodyRes
  | ok
  | err
  deriving DecidableEq, Repr

/-- Result of a scoped acquisition: whether an error propagated, the new
pool state, and the ids of connections closed along the way. -/
structure AcqResult where
  raised : Bool
  state : PoolState
  closed : List Nat
  deriving Repr

/-- `ConnectionPool.get_connection` (db_manager.py lines 69-102): takes the
next connection from the queue, runs the body on it; on a body error the
connection is closed and replaced by a freshly opened one, and the error is
re-raised; the `finally` block returns the current connection object (the
replacement, on the error path) to the pool.  The empty-queue case models
`Queue.get` blocking (never reached in the theorems, which require an
available connection). -/
def get_connection (st : PoolState) (body : Conn → BodyRes) : AcqResult :=
  match st.queue with
  | [] => ⟨false, st, []⟩
  | c :: rest =>
    match body c with
    | .ok => ⟨false, ⟨rest ++ [c], st.nextId⟩, []⟩
    | .err =>
      let (fresh, st') := create_connection ⟨rest, st.nextId⟩
      ⟨true, ⟨st'.queue ++ [fresh], st'.nextId⟩, [c.id]⟩

/-- `ConnectionPool._init_pool`: the pool starts with `max_connections`
freshly opened connections. -/
def init_pool (max_connections : Nat) : PoolState :=
  ⟨(List.range max_connections).map (fun i => ⟨i, true⟩), max_connections⟩

/-! ## Theorems for C5 and C6 -/

/-- C5: on every event table created by `new_event_type` (columns
`event_id`, `status`, `detail`, `added_at`) and every event id,
`delete_event` fails at the storage layer because its DELETE statement
filters by the column `file_id`, which is not in the event-table schema;
the error propagates and the transaction rolls back, leaving the rows
unchanged. -/
theorem delete_event_always_fails (t : EventTable) (h : t.cols = eventTableCols)
    (event_id : String) :
    delete_event t event_id = (t, some (.noSuchColumn "file_id")) := by
  have hnot : "file_id" ∉ t.cols := by
    rw [h]; decide
  simp [delete_event, transactionRun, sqlDeleteWhere, hnot]

/-- Witness for C5 at a concrete one-row table. -/
theorem delete_event_always_fails_witness :
    delete_event ⟨eventTableCols, [⟨"01A", "pending", "\x7b\x7d", 7⟩]⟩ "01A"
      = (⟨eventTableCols, [⟨"01A", "pending", "\x7b\x7d", 7⟩]⟩,
         some (.noSuchColumn "file_id")) :=
  delete_event_always_fails _ rfl _

/-- C6: for every scoped acquisition on a pool currently holding
`n` connections (all ids below the fresh-id counter, no duplicate ids):
the pool holds exactly `n` connections again after the scope exits, on
every exit path; on normal exit the checked-out connection itself returns
to the pool; if the body raises, that connection is closed and is **not**
returned — a freshly opened replacement is in the pool instead. -/
theorem get_connection_spec (st : PoolState) (body : Conn → BodyRes)
    (n : Nat) (c : Conn) (rest : List Conn)
    (hq : st.queue = c :: rest)
    (hn : st.queue.length = n)
    (hb : ∀ x ∈ st.queue, x.id < st.nextId)
    (hnd : (st.queue.map Conn.id).Nodup) :
    (get_connection st body).state.queue.length = n ∧
    (body c = .ok →
      get_connection st body = ⟨false, ⟨rest ++ [c], st.nextId⟩, []⟩) ∧
    (body c = .err →
      (get_connection st body).raised = true ∧
      (get_connection st body).closed = [c.id] ∧
      (get_connection st body).state.queue = rest ++ [⟨st.nextId, true⟩] ∧
      c.id ∉ (get_connection st body).state.queue.map Conn.id ∧
      (⟨st.nextId, true⟩ : Conn) ∈ (get_connection st body).state.queue) := by
  have hcid : c.id < st.nextId := hb c (by rw [hq]; exact List.mem_cons_self _ _)
  have hrest : c.id ∉ rest.map Conn.id := by
    rw [hq] at hnd
    simp only [List.map_cons, List.nodup_cons] at hnd
    exact hnd.1
  refine ⟨?_, ?_, ?_⟩
  · cases hbc : body c <;>
      simp [get_connection, hq, hbc, create_connection, ← hn]
  · intro hbc
    simp [get_connection, hq, hbc]
  · intro hbc
    refine ⟨?_, ?_, ?_, ?_, ?_⟩
    · simp [get_connection, hq, hbc]
    · simp [get_connection, hq, hbc, create_connection]
    · simp [get_connection, hq, hbc, create_connection]
    · simp only [get_connection, hq, hbc, create_connection, List.map_append,
        List.map_cons, List.map_nil, List.mem_append, List.mem_cons,
        List.mem_singleton]
      rintro (h | h)
      · exact hrest (by simpa using h)
      · simp at h
        omega
    · simp [get_connection, hq, hbc, create_connection]

/-- Witness for C6 on a concrete two-connection pool whose body raises. -/
theorem get_connection_spec_witness :
    (get_connection ⟨[⟨0, true⟩, ⟨1, true⟩], 2⟩ (fun _ => .err)).state.queue.length = 2 ∧
    ((fun (_ : Conn) => BodyRes.err) ⟨0, true⟩ = .ok →
      get_connection ⟨[⟨0, true⟩, ⟨1, true⟩], 2⟩ (fun _ => .err)
        = ⟨false, ⟨[⟨1, true⟩] ++ [⟨0, true⟩], 2⟩, []⟩) ∧
    ((fun (_ : Conn) => BodyRes.err) ⟨0, true⟩ = .err →
      (get_connection ⟨[⟨0, true⟩, ⟨1, true⟩], 2⟩ (fun _ => .err)).raised = true ∧
      (get_connection ⟨[⟨0, true⟩, ⟨1, true⟩], 2⟩ (fun _ => .err)).closed = [(0 : Nat)] ∧
      (get_connection ⟨[⟨0, true⟩, ⟨1, true⟩], 2⟩ (fun _ => .err)).state.queue
        = [⟨1, true⟩] ++ [⟨2, true⟩] ∧
      (0 : Nat) ∉ (get_connection ⟨[⟨0, true⟩, ⟨1, true⟩], 2⟩
          (fun _ => .err)).state.queue.map Conn.id ∧
      (⟨2, true⟩ : Conn) ∈ (get_connection ⟨[⟨0, true⟩, ⟨1, true⟩], 2⟩
          (fun _ => .err)).state.queue) :=
  get_connection_spec ⟨[⟨0, true⟩, ⟨1, true⟩], 2⟩ (fun _ => .err) 2 ⟨0, true⟩
    [⟨1, true⟩] rfl rfl (by decide) (by decide)

/-! ## JSON model and codec (`utils/common.py` marshall_json / unmarshall_json)

The stdlib `json.dumps`/`json.loads` pair behind the two helpers is
modelled by an executable printer and a fuelled recursive-descent parser
over a JSON value type (strings as character lists; numbers restricted to
the integers, which is all the event detail payloads use). -/

/-- A JSON value. -/
inductive Json
  | null
  | bool (b : Bool)
  | int (n : Int)
  | str (s : List Char)
  | arr (xs : List Json)
  | obj (fields : List (List Char × Json))

/-- The decimal digit character for `d` (meaningful for `d < 10`). -/
def digitChar (d : Nat) : Char := Char.ofNat (48 + d)

/-- The numeric value of a decimal digit character. -/
def digitVal (c : Char) : Nat := c.toNat - 48

/-- Decimal print of a natural number, most significant digit first. -/
def printNat (n : Nat) : List Char :=
  if _h : n < 10 then [digitChar n]
  else printNat (n / 10) ++ [digitChar (n % 10)]
decreasing_by exact Nat.div_lt_self (by omega) (by omega)

/-- Decimal print of an integer. -/
def printInt (n : Int) : List Char :=
  if n < 0 then '-' :: printNat n.natAbs else printNat n.natAbs

/-- JSON string escaping: quote and backslash get a backslash prefix. -/
def escapeChar (c : Char) : List Char :=
  if c = '"' ∨ c = '\\' then ['\\', c] else [c]

/-- Escape every character of a string body. -/
def escapeStr (s : List Char) : List Char := (s.map escapeChar).flatten

/-- The character of the JSON keyword `null` after its leading `n`. -/
def nullTail : List Char := ['u', 'l', 'l']

/-- The characters of the JSON keyword `true` after its leading `t`. -/
def trueTail : List Char := ['r', 'u', 'e']

/-- The characters of the JSON keyword `false` after its leading `f`. -/
def falseTail : List Char := ['a', 'l', 's', 'e']

mutual

/-- Print a JSON value. -/
def printJson : Json → List Char
  | .null => 'n' :: nullTail
  | .bool true => 't' :: trueTail
  | .bool false => 'f' :: falseTail
  | .int n => printInt n
  | .str s => '"' :: (escapeStr s ++ ['"'])
  | .arr [] => ['[', ']']
  | .arr (x :: xs) => '[' :: (printJson x ++ (printMoreA xs ++ [']']))
  | .obj [] => ['\x7b', '\x7d']
  | .obj ((k, v) :: fs) =>
      '\x7b' :: ('"' :: (escapeStr k ++ ['"'])) ++
        (':' :: printJson v) ++ printMoreO fs ++ ['\x7d']

/-- Print the tail elements of an array, each preceded by a comma. -/
def printMoreA : List Json → List Char
  | [] => []
  | y :: ys => ',' :: printJson y ++ printMoreA ys

/-- Print the tail fields of an object, each preceded by a comma. -/
def printMoreO : List (List Char × Json) → List Char
  | [] => []
  | (k, v) :: fs =>
      ',' :: ('"' :: (escapeStr k ++ ['"'])) ++ (':' :: printJson v) ++ printMoreO fs

end

/-- Greedily consume decimal digits, accumulating their value. -/
def parseDigits (acc : Nat) : List Char → Nat × List Char
  | [] => (acc, [])
  | c :: cs => if c.isDigit then parseDigits (10 * acc + digitVal c) cs else (acc, c :: cs)

/-- Match an expected literal character sequence, returning the remainder. -/
def expectChars : List Char → List Char → Option (List Char)
  | [], cs => some cs
  | _ :: _, [] => none
  | p :: ps, c :: cs => if c = p then expectChars ps cs else none

/-- Parse a JSON string body (after the opening quote) up to and including
the closing quote, undoing the escaping. -/
def parseStrBody : List Char → Option (List Char × List Char)
  | [] => none
  | c :: cs =>
    if c = '\\' then
      match cs with
      | [] => none
      | e :: cs' => (parseStrBody cs').map (fun p => (e :: p.1, p.2))
    else if c = '"' then some ([], cs)
    else (parseStrBody cs).map (fun p => (c :: p.1, p.2))

mutual

/-- Parse one JSON value (fuelled). -/
def parseVal : Nat → List Char → Option (Json × List Char)
  | 0, _ => none
  | _ + 1, [] => none
  | fuel + 1, c :: cs =>
    if c = 'n' then (expectChars nullTail cs).map (fun r => (.null, r))
    else if c = 't' then (expectChars trueTail cs).map (fun r => (.bool true, r))
    else if c = 'f' then (expectChars falseTail cs).map (fun r => (.bool false, r))
    else if c = '"' then (parseStrBody cs).map (fun p => (.str p.1, p.2))
    else if c = '[' then
      match cs with
      | [] => none
      | c2 :: cs2 =>
        if c2 = ']' then some (.arr [], cs2)
        else
          match parseVal fuel (c2 :: cs2) with
          | none => none
          | some (v, r) =>
            match parseMoreA fuel r with
            | none => none
            | some (vs, r') => some (.arr (v :: vs), r')
    else if c = '\x7b' then
      match cs with
      | [] => none
      | c2 :: cs2 =>
        if c2 = '\x7d' then some (.obj [], cs2)
        else if c2 = '"' then
          match parseStrBody cs2 with
          | none => none
          | some (k, r) =>
            match r with
            | ':' :: r2 =>
              match parseVal fuel r2 with
              | none => none
              | some (v, r3) =>
                match parseMoreO fuel r3 with
                | none => none
                | some (fs, r4) => some (.obj ((k, v) :: fs), r4)
            | _ => none
        else none
    else if c = '-' then
      match cs with
      | [] => none
      | d :: ds =>
        if d.isDigit then
          some (.int (-(parseDigits (digitVal d) ds).1), (parseDigits (digitVal d) ds).2)
        else none
    else if c.isDigit then
      some (.int ((parseDigits (digitVal c) cs).1 : Nat), (parseDigits (digitVal c) cs).2)
    else none

/-- Parse array continuation: either `]` or `, value` repeated (fuelled). -/
def parseMoreA : Nat → List Char → Option (List Json × List Char)
  | 0, _ => none
  | _ + 1, [] => none
  | fuel + 1, c :: cs =>
    if c = ']' then some ([], cs)
    else if c = ',' then
      match parseVal fuel cs with
      | none => none
      | some (v, r) =>
        match parseMoreA fuel r with
        | none => none
        | some (vs, r') => some (v :: vs, r')
    else none

/-- Parse object continuation: either `}` or `, "key": value` repeated
(fuelled). -/
def parseMoreO : Nat → List Char → Option (List (List Char × Json) × List Char)
  | 0, _ => none
  | _ + 1, [] => none
  | fuel + 1, c :: cs =>
    if c = '\x7d' then some ([], cs)
    else if c = ',' then
      match cs with
      | [] => none
      | c2 :: cs2 =>
        if c2 = '"' then
          match parseStrBody cs2 with
          | none => none
          | some (k, r) =>
            match r with
            | ':' :: r2 =>
              match parseVal fuel r2 with
              | none => none
              | some (v, r3) =>
                match parseMoreO fuel r3 with
                | none => none
                | some (fs, r4) => some ((k, v) :: fs, r4)
            | _ => none
        else none
    else none

end

/-! ### Codec round-trip lemmas -/

/-- `[]` or a non-digit first character: the context in which greedy number
parsing stops exactly at the printed number. -/
def nonDigitStart : List Char → Prop
  | [] => True
  | c :: _ => ¬ c.isDigit = true

theorem digitChar_isDigit (d : Nat) (h : d < 10) : (digitChar d).isDigit = true := by
  interval_cases d <;> decide

theorem digitVal_digitChar (d : Nat) (h : d < 10) : digitVal (digitChar d) = d := by
  interval_cases d <;> decide

theorem printNat_all_digits (n : Nat) : ∀ c ∈ printNat n, c.isDigit = true := by
  induction n using Nat.strong_induction_on with
  | _ n ih =>
    intro c hc
    rw [printNat] at hc
    by_cases h : n < 10
    · simp [h] at hc
      exact hc ▸ digitChar_isDigit n h
    · simp [h] at hc
      rcases hc with hc | hc
      · exact ih (n / 10) (Nat.div_lt_self (by omega) (by omega)) c hc
      · exact hc ▸ digitChar_isDigit (n % 10) (Nat.mod_lt _ (by omega))

theorem printNat_ne_nil (n : Nat) : printNat n ≠ [] := by
  rw [printNat]
  by_cases h : n < 10 <;> simp [h]

theorem parseDigits_printNat_aux (n : Nat) :
    ∀ acc rest, parseDigits acc (printNat n ++ rest)
      = parseDigits (acc * 10 ^ (printNat n).length + n) rest := by
  induction n using Nat.strong_induction_on with
  | _ n ih =>
    intro acc rest
    by_cases h : n < 10
    · have hpn : printNat n = [digitChar n] := by rw [printNat]; simp [h]
      rw [hpn]
      have h1 : (digitChar n).isDigit = true := digitChar_isDigit n h
      have h2 : digitVal (digitChar n) = n := digitVal_digitChar n h
      simp [parseDigits, h1, h2]
      rw [Nat.mul_comm 10 acc]
    · have hpn : printNat n = printNat (n / 10) ++ [digitChar (n % 10)] := by
        rw [printNat]; simp [h]
      rw [hpn, List.append_assoc]
      rw [ih (n / 10) (Nat.div_lt_self (by omega) (by omega))]
      have h1 : (digitChar (n % 10)).isDigit = true :=
        digitChar_isDigit _ (Nat.mod_lt _ (by omega))
      have h2 : digitVal (digitChar (n % 10)) = n % 10 :=
        digitVal_digitChar _ (Nat.mod_lt _ (by omega))
      simp only [List.cons_append, List.nil_append, parseDigits, h1, if_pos, h2,
        List.length_append, List.length_cons, List.length_nil]
      have heq : 10 * (acc * 10 ^ (printNat (n / 10)).length + n / 10) + n % 10
          = acc * 10 ^ ((printNat (n / 10)).length + (0 + 1)) + n := by
        rw [Nat.add_comm 0 1, pow_succ, ← Nat.mul_assoc]
        have hdm := Nat.div_add_mod n 10
        generalize acc * 10 ^ (printNat (n / 10)).length = B
        omega
      rw [heq]
      simp

theorem parseDigits_stop (acc : Nat) (rest : List Char) (h : nonDigitStart rest) :
    parseDigits acc rest = (acc, rest) := by
  cases rest with
  | nil => simp [parseDigits]
  | cons c cs =>
    simp only [nonDigitStart] at h
    simp [parseDigits, h]

theorem parseDigits_printNat (n : Nat) (rest : List Char) (h : nonDigitStart rest) :
    parseDigits 0 (printNat n ++ rest) = (n, rest) := by
  rw [parseDigits_printNat_aux, parseDigits_stop _ _ h]
  simp

theorem expectChars_self (p rest : List Char) : expectChars p (p ++ rest) = some rest := by
  induction p with
  | nil => simp [expectChars]
  | cons c cs ih => simp [expectChars, ih]

theorem parseStrBody_escape (s rest : List Char) :
    parseStrBody (escapeStr s ++ '"' :: rest) = some (s, rest) := by
  induction s with
  | nil =>
    have h0 : escapeStr [] = [] := by simp [escapeStr]
    rw [h0, List.nil_append, parseStrBody.eq_def]
    simp
  | cons c s ih =>
    by_cases hc : c = '"' ∨ c = '\\'
    · have h2 : escapeStr (c :: s) = '\\' :: c :: escapeStr s := by
        simp [escapeStr, escapeChar, hc]
      rw [h2, List.cons_append, parseStrBody.eq_def]
      simp [ih]
    · push_neg at hc
      have h2 : escapeStr (c :: s) = c :: escapeStr s := by
        simp [escapeStr, escapeChar, hc.1, hc.2]
      rw [h2, List.cons_append, parseStrBody.eq_def]
      simp [hc.1, hc.2, ih]

mutual

/-- Fuel measure for a JSON value: enough fuel for `parseVal` to finish. -/
def jsize : Json → Nat
  | .null => 1
  | .bool _ => 1
  | .int _ => 1
  | .str _ => 1
  | .arr xs => 1 + jsizeA xs
  | .obj fs => 1 + jsizeO fs

/-- Fuel measure for an array continuation. -/
def jsizeA : List Json → Nat
  | [] => 1
  | y :: ys => 1 + jsize y + jsizeA ys

/-- Fuel measure for an object continuation. -/
def jsizeO : List (List Char × Json) → Nat
  | [] => 1
  | (_, v) :: fs => 1 + jsize v + jsizeO fs

end

theorem jsize_pos (j : Json) : 1 ≤ jsize j := by
  cases j <;> simp [jsize] <;> omega

theorem jsizeA_pos (xs : List Json) : 1 ≤ jsizeA xs := by
  cases xs <;> simp [jsizeA] <;> omega

theorem jsizeO_pos (fs : List (List Char × Json)) : 1 ≤ jsizeO fs := by
  cases fs with
  | nil => simp [jsizeO]
  | cons f fs => obtain ⟨k, v⟩ := f; simp [jsizeO]; omega

theorem isDigit_ne_special (c : Char) (h : c.isDigit = true) :
    c ≠ 'n' ∧ c ≠ 't' ∧ c ≠ 'f' ∧ c ≠ '"' ∧ c ≠ '[' ∧ c ≠ '\x7b' ∧ c ≠ '-' := by
  refine ⟨?_, ?_, ?_, ?_, ?_, ?_, ?_⟩ <;>
    (intro he; rw [he] at h; exact absurd h (by decide))

theorem printJson_head (j : Json) :
    ∃ c cs, printJson j = c :: cs ∧ c ≠ ']' ∧ c ≠ '\x7d' ∧ c ≠ ',' ∧ c ≠ ':' := by
  cases j with
  | null =>
    exact ⟨'n', nullTail, by simp [printJson], by decide, by decide,
      by decide, by decide⟩
  | bool b =>
    cases b
    · exact ⟨'f', falseTail, by simp [printJson], by decide, by decide,
        by decide, by decide⟩
    · exact ⟨'t', trueTail, by simp [printJson], by decide, by decide,
        by decide, by decide⟩
  | int n =>
    by_cases hn : n < 0
    · exact ⟨'-', printNat n.natAbs, by simp [printJson, printInt, hn], by decide,
        by decide, by decide, by decide⟩
    · obtain ⟨c, cs, hc⟩ := List.exists_cons_of_ne_nil (printNat_ne_nil n.natAbs)
      have hd : c.isDigit = true :=
        printNat_all_digits _ c (by rw [hc]; exact List.mem_cons_self _ _)
      refine ⟨c, cs, by simp [printJson, printInt, hn, hc], ?_, ?_, ?_, ?_⟩ <;>
        (intro he; rw [he] at hd; exact absurd hd (by decide))
  | str s =>
    exact ⟨'"', escapeStr s ++ ['"'], by simp [printJson], by decide, by decide,
      by decide, by decide⟩
  | arr xs =>
    cases xs with
    | nil =>
      exact ⟨'[', [']'], by simp [printJson], by decide, by decide, by decide,
        by decide⟩
    | cons x xs =>
      exact ⟨'[', printJson x ++ (printMoreA xs ++ [']']), by simp [printJson],
        by decide, by decide, by decide, by decide⟩
  | obj fs =>
    cases fs with
    | nil =>
      exact ⟨'\x7b', ['\x7d'], by simp [printJson], by decide, by decide,
        by decide, by decide⟩
    | cons f fs =>
      obtain ⟨k, v⟩ := f
      exact ⟨'\x7b', ('"' :: (escapeStr k ++ ['"'])) ++
          (':' :: printJson v) ++ printMoreO fs ++ ['\x7d'], by simp [printJson],
        by decide, by decide, by decide, by decide⟩

theorem nds_moreA (xs : List Json) (rest : List Char) :
    nonDigitStart (printMoreA xs ++ ']' :: rest) := by
  cases xs <;> simp [printMoreA, nonDigitStart]

theorem nds_moreO (fs : List (List Char × Json)) (rest : List Char) :
    nonDigitStart (printMoreO fs ++ '\x7d' :: rest) := by
  cases fs with
  | nil => simp [printMoreO, nonDigitStart]
  | cons f fs => obtain ⟨k, v⟩ := f; simp [printMoreO, nonDigitStart]

theorem parseVal_printInt (fuel : Nat) (n : Int) (rest : List Char)
    (hnd : nonDigitStart rest) :
    parseVal (fuel + 1) (printInt n ++ rest) = some (.int n, rest) := by
  obtain ⟨d, ds, hd⟩ := List.exists_cons_of_ne_nil (printNat_ne_nil n.natAbs)
  have hdig : d.isDigit = true :=
    printNat_all_digits _ d (by rw [hd]; exact List.mem_cons_self _ _)
  have hpd : parseDigits (digitVal d) (ds ++ rest) = (n.natAbs, rest) := by
    have h0 := parseDigits_printNat n.natAbs rest hnd
    rw [hd] at h0
    simpa [parseDigits, hdig] using h0
  by_cases hn : n < 0
  · simp [printInt, hn, hd, parseVal, hdig, hpd]
    rw [abs_of_neg hn, neg_neg]
  · obtain ⟨hn1, hn2, hn3, hn4, hn5, hn6, hn7⟩ := isDigit_ne_special d hdig
    have hint : ((n.natAbs : Int)) = n := by omega
    simp [printInt, hn, hd, parseVal, hdig, hn1, hn2, hn3, hn4, hn5, hn6, hn7,
      hpd, hint]

theorem parse_print (fuel : Nat) :
    (∀ j rest, jsize j ≤ fuel → nonDigitStart rest →
        parseVal fuel (printJson j ++ rest) = some (j, rest)) ∧
    (∀ xs rest, jsizeA xs ≤ fuel →
        parseMoreA fuel (printMoreA xs ++ ']' :: rest) = some (xs, rest)) ∧
    (∀ fs rest, jsizeO fs ≤ fuel →
        parseMoreO fuel (printMoreO fs ++ '\x7d' :: rest) = some (fs, rest)) := by
  induction fuel with
  | zero =>
    refine ⟨fun j rest hsz _ => absurd hsz (by have := jsize_pos j; omega),
            fun xs rest hsz => absurd hsz (by have := jsizeA_pos xs; omega),
            fun fs rest hsz => absurd hsz (by have := jsizeO_pos fs; omega)⟩
  | succ fuel ih =>
    obtain ⟨ihV, ihA, ihO⟩ := ih
    refine ⟨?_, ?_, ?_⟩
    · intro j rest hsz hnd
      cases j with
      | null => simp [printJson, parseVal, expectChars, nullTail]
      | bool b =>
        cases b <;> simp [printJson, parseVal, expectChars, trueTail, falseTail]
      | int n =>
        have hp : printJson (.int n) = printInt n := by simp [printJson]
        rw [hp]
        exact parseVal_printInt fuel n rest hnd
      | str s =>
        have hp : printJson (.str s) = '"' :: (escapeStr s ++ ['"']) := by
          simp [printJson]
        rw [hp]
        simp [parseVal, List.append_assoc, parseStrBody_escape]
      | arr xs =>
        cases xs with
        | nil => simp [printJson, parseVal]
        | cons x xs =>
          have hp : printJson (.arr (x :: xs))
              = '[' :: (printJson x ++ (printMoreA xs ++ [']'])) := by
            simp [printJson]
          have hs1 : jsize (.arr (x :: xs)) = 1 + (1 + jsize x + jsizeA xs) := by
            simp [jsize, jsizeA]
          rw [hs1] at hsz
          obtain ⟨c2, cs2, hx, he1, he2, he3, he4⟩ := printJson_head x
          have hv := ihV x (printMoreA xs ++ ']' :: rest) (by omega)
            (nds_moreA xs rest)
          rw [hx] at hv
          have ha := ihA xs rest (by omega)
          rw [hp, hx]
          simp only [List.cons_append, List.append_assoc] at hv ⊢
          simp [parseVal, he1, hv, ha]
      | obj fs =>
        cases fs with
        | nil => simp [printJson, parseVal]
        | cons f fs =>
          obtain ⟨k, v⟩ := f
          have hp : printJson (.obj ((k, v) :: fs))
              = '\x7b' :: ('"' :: (escapeStr k ++ ['"'])) ++
                  (':' :: printJson v) ++ printMoreO fs ++ ['\x7d'] := by
            simp [printJson]
          have hs1 : jsize (.obj ((k, v) :: fs)) = 1 + (1 + jsize v + jsizeO fs) := by
            simp [jsize, jsizeO]
          rw [hs1] at hsz
          have hv := ihV v (printMoreO fs ++ '\x7d' :: rest) (by omega)
            (nds_moreO fs rest)
          have ho := ihO fs rest (by omega)
          rw [hp]
          simp only [List.cons_append, List.append_assoc, List.nil_append] at hv ⊢
          simp [parseVal, parseStrBody_escape, hv, ho]
    · intro xs rest hsz
      cases xs with
      | nil => simp [printMoreA, parseMoreA]
      | cons y ys =>
        have hs1 : jsizeA (y :: ys) = 1 + jsize y + jsizeA ys := by
          simp [jsizeA]
        rw [hs1] at hsz
        have hv := ihV y (printMoreA ys ++ ']' :: rest) (by omega)
          (nds_moreA ys rest)
        have ha := ihA ys rest (by omega)
        have hp : printMoreA (y :: ys) = ',' :: printJson y ++ printMoreA ys := by
          simp [printMoreA]
        rw [hp]
        simp only [List.cons_append, List.append_assoc] at hv ⊢
        simp [parseMoreA, hv, ha]
    · intro fs rest hsz
      cases fs with
      | nil => simp [printMoreO, parseMoreO]
      | cons f fs =>
        obtain ⟨k, v⟩ := f
        have hs1 : jsizeO ((k, v) :: fs) = 1 + jsize v + jsizeO fs := by
          simp [jsizeO]
        rw [hs1] at hsz
        have hv := ihV v (printMoreO fs ++ '\x7d' :: rest) (by omega)
          (nds_moreO fs rest)
        have ho := ihO fs rest (by omega)
        have hp : printMoreO ((k, v) :: fs)
            = ',' :: ('"' :: (escapeStr k ++ ['"'])) ++ (':' :: printJson v)
                ++ printMoreO fs := by
          simp [printMoreO]
        rw [hp]
        simp only [List.cons_append, List.append_assoc, List.nil_append] at hv ⊢
        simp [parseMoreO, parseStrBody_escape, hv, ho]

theorem jsize_le_aux (n : Nat) :
    (∀ j, jsize j ≤ n → jsize j ≤ 2 * (printJson j).length) ∧
    (∀ xs, jsizeA xs ≤ n → jsizeA xs ≤ 1 + 2 * (printMoreA xs).length) ∧
    (∀ fs, jsizeO fs ≤ n → jsizeO fs ≤ 1 + 2 * (printMoreO fs).length) := by
  induction n with
  | zero =>
    refine ⟨fun j hsz => absurd hsz (by have := jsize_pos j; omega),
            fun xs hsz => absurd hsz (by have := jsizeA_pos xs; omega),
            fun fs hsz => absurd hsz (by have := jsizeO_pos fs; omega)⟩
  | succ n ih =>
    obtain ⟨ihV, ihA, ihO⟩ := ih
    refine ⟨?_, ?_, ?_⟩
    · intro j hsz
      cases j with
      | null => simp [jsize, printJson, nullTail]
      | bool b => cases b <;> simp [jsize, printJson, trueTail, falseTail]
      | int m =>
        have h1 : printNat m.natAbs ≠ [] := printNat_ne_nil m.natAbs
        have h2 : 1 ≤ (printNat m.natAbs).length := by
          cases hp : printNat m.natAbs with
          | nil => exact absurd hp h1
          | cons c cs => simp
        have hj : jsize (Json.int m) = 1 := by simp [jsize]
        rw [hj]
        by_cases hm : m < 0 <;> simp [printJson, printInt, hm] <;> omega
      | str s =>
        have hj : jsize (Json.str s) = 1 := by simp [jsize]
        have hp : printJson (.str s) = '"' :: (escapeStr s ++ ['"']) := by
          simp [printJson]
        rw [hj, hp]
        simp
        omega
      | arr xs =>
        cases xs with
        | nil => simp [jsize, jsizeA, printJson]
        | cons x xs =>
          have hs1 : jsize (.arr (x :: xs)) = 1 + (1 + jsize x + jsizeA xs) := by
            simp [jsize, jsizeA]
          have hp : printJson (.arr (x :: xs))
              = '[' :: (printJson x ++ (printMoreA xs ++ [']'])) := by
            simp [printJson]
          rw [hs1] at hsz ⊢
          rw [hp]
          have hx := ihV x (by omega)
          have hxs := ihA xs (by omega)
          simp
          omega
      | obj fs =>
        cases fs with
        | nil => simp [jsize, jsizeO, printJson]
        | cons f fs =>
          obtain ⟨k, v⟩ := f
          have hs1 : jsize (.obj ((k, v) :: fs)) = 1 + (1 + jsize v + jsizeO fs) := by
            simp [jsize, jsizeO]
          have hp : printJson (.obj ((k, v) :: fs))
              = '\x7b' :: ('"' :: (escapeStr k ++ ['"'])) ++
                  (':' :: printJson v) ++ printMoreO fs ++ ['\x7d'] := by
            simp [printJson]
          rw [hs1] at hsz ⊢
          rw [hp]
          have hv := ihV v (by omega)
          have hfs := ihO fs (by omega)
          simp
          omega
    · intro xs hsz
      cases xs with
      | nil => simp [jsizeA, printMoreA]
      | cons y ys =>
        have hs1 : jsizeA (y :: ys) = 1 + jsize y + jsizeA ys := by simp [jsizeA]
        have hp : printMoreA (y :: ys) = ',' :: printJson y ++ printMoreA ys := by
          simp [printMoreA]
        rw [hs1] at hsz ⊢
        rw [hp]
        have hy := ihV y (by omega)
        have hys := ihA ys (by omega)
        simp
        omega
    · intro fs hsz
      cases fs with
      | nil => simp [jsizeO, printMoreO]
      | cons f fs =>
        obtain ⟨k, v⟩ := f
        have hs1 : jsizeO ((k, v) :: fs) = 1 + jsize v + jsizeO fs := by
          simp [jsizeO]
        have hp : printMoreO ((k, v) :: fs)
            = ',' :: ('"' :: (escapeStr k ++ ['"'])) ++ (':' :: printJson v)
                ++ printMoreO fs := by
          simp [printMoreO]
        rw [hs1] at hsz ⊢
        rw [hp]
        have hv := ihV v (by omega)
        have hfs := ihO fs (by omega)
        simp
        omega

theorem jsize_le_twice_length (j : Json) : jsize j ≤ 2 * (printJson j).length :=
  (jsize_le_aux (jsize j)).1 j le_rfl

/-- `marshall_json(data)` (utils/common.py lines 49-60): `json.dumps` of a
JSON value, as a string. -/
def marshall_json (j : Json) : String := ⟨printJson j⟩

/-- `unmarshall_json(data)` (utils/common.py lines 62-73): `json.loads` of
a string; `none` models the decode error raised on non-JSON input or
trailing garbage. -/
def unmarshall_json (s : String) : Option Json :=
  match parseVal (2 * s.toList.length + 1) s.toList with
  | some (j, []) => some j
  | _ => none

/-- The codec round-trip: decoding an encoded JSON value gives it back. -/
theorem unmarshall_marshall_json (j : Json) :
    unmarshall_json (marshall_json j) = some j := by
  have hfu : jsize j ≤ 2 * (printJson j).length + 1 :=
    le_trans (jsize_le_twice_length j) (by omega)
  have h := (parse_print (2 * (printJson j).length + 1)).1 j [] hfu trivial
  rw [List.append_nil] at h
  have htl : (String.mk (printJson j)).toList = printJson j := rfl
  unfold unmarshall_json marshall_json
  rw [htl, h]

/-! ## Event metadata and CRUD (`src/share/types.py`, `src/db_manager/event_manager.py`) -/

/-- `share/types.py::EventMetadata`: `event_id`, `type`, `status`, `detail`
(a JSON-shaped mapping). -/
structure EventMetadata where
  event_id : String
  type : String
  status : String
  detail : Json

/-- `EventManager.add_event(event_type, metadata)` (event_manager.py lines
61-90): `INSERT INTO {event_type} (event_id, status, detail) VALUES (?, ?, ?)`
with `detail` passed through `marshall_json`; `added_at` takes the
server-assigned insertion time; the `event_id` PRIMARY KEY rejects
duplicates. -/
def add_event (t : EventTable) (m : EventMetadata) (now : Int) :
    Except SqlErr EventTable :=
  if t.rows.any (fun r => r.event_id == m.event_id) then .error .pkViolation
  else .ok { t with
    rows := t.rows ++ [⟨m.event_id, m.status, marshall_json m.detail, now⟩] }

/-- An event record as returned by `get_event`: the row with `detail`
JSON-decoded back into a mapping (`none` models the decode raising). -/
structure GotEvent where
  event_id : String
  status : String
  detail : Option Json
  added_at : Int

/-- `EventManager.get_event(event_type, event_id)` (event_manager.py lines
142-168): `SELECT * FROM {event_type} WHERE event_id = ?`, `fetchone`; when
a row exists, its `detail` is decoded with `unmarshall_json` before
return; otherwise no value. -/
def get_event (t : EventTable) (event_id : String) : Option GotEvent :=
  match t.rows.find? (fun r => r.event_id == event_id) with
  | some r => some ⟨r.event_id, r.status, unmarshall_json r.detail, r.added_at⟩
  | none => none

/-- C8: for every event metadata whose detail is a JSON mapping, inserting
it with `add_event` into a table freshly created by `new_event_type` and
reading it back with `get_event` under the same id succeeds and returns a
record with the same `event_id` and `status`, and whose `detail`, decoded
from its stored JSON text, equals the inserted mapping. -/
theorem add_then_get_event_roundtrip (fields : List (List Char × Json))
    (event_id status : String) (now : Int) :
    ∃ t', add_event new_event_type ⟨event_id, "upload", status, .obj fields⟩ now
        = .ok t' ∧
      get_event t' event_id
        = some ⟨event_id, status, some (.obj fields), now⟩ := by
  refine ⟨⟨eventTableCols,
    [⟨event_id, status, marshall_json (.obj fields), now⟩]⟩, ?_, ?_⟩
  · simp [add_event, new_event_type]
  · simp [get_event, List.find?, unmarshall_marshall_json]

/-! ## RAG engine query (`src/rag/rag_system.py` lines 259-308) -/

/-- The fixed system instruction of `RAGSystem.query` (before the context
is appended). -/
def querySystemInstruction : String :=
  "Please answer the question primarily based on the provided context," ++
  "but you may supplement with your knowledge when appropriate. " ++
  "Always prioritize context information when there are conflicts. " ++
  "Also, make sure the answer is in language that the user uses."

/-- What `RAGSystem.query` returns to its caller: the success pair
`(answer, message)`, or the error-path value `(("", {str(e)}),)` — a
one-element tuple wrapping a pair of the empty string and a one-element
set holding the error text (the Python set literal is modelled as a
one-element list). -/
inductive QueryReturn
  | pair (answer message : String)
  | errWrap (first : String) (errSet : List String)

/-- The body of the `try` block of `RAGSystem.query`: fall back to the
collection literally named "default" when the requested one is not loaded,
raise if "default" is not loaded either, then run the top-3 similarity
search, join the chunk texts with blank lines, and issue the
chat-completion request.  The vector store lookup and the chat client are
external calls, abstracted as `Except`-valued oracles carrying `str(e)` on
failure. -/
def querySteps (vector_stores : List String)
    (collection_name user_query : String)
    (similarity_search : String → String → Except String (List String))
    (chat_completion : String → String → Except String String) :
    Except String (String × String) :=
  let cn := if collection_name ∈ vector_stores then collection_name else "default"
  if cn = "default" ∧ "default" ∉ vector_stores then
    .error ("the collection not found and the `default` collection not exist, " ++
      "please create collection first")
  else
    (similarity_search cn user_query).bind (fun docs =>
      (chat_completion (querySystemInstruction ++ "\n\n"
          ++ String.intercalate "\n\n" docs) user_query).bind (fun answer =>
        .ok (answer, "Get response successfully")))

/-- `RAGSystem.query`: the `try`/`except` wrapper — a raised error is
logged and converted into the error-path return value instead of being
propagated. -/
def query (vector_stores : List String) (collection_name user_query : String)
    (similarity_search : String → String → Except String (List String))
    (chat_completion : String → String → Except String String) : QueryReturn :=
  match querySteps vector_stores collection_name user_query
      similarity_search chat_completion with
  | .ok (a, m) => .pair a m
  | .error e => .errWrap "" [e]

/-- C4: for every collection name, query text and external-call behaviour,
`query` never propagates an exception: it returns either the success pair
`(answer, "Get response successfully")` or the error-path single-element
sequence wrapping a pair of the empty string and a one-element collection
holding the error text. -/
theorem query_never_raises (vector_stores : List String)
    (collection_name user_query : String)
    (similarity_search : String → String → Except String (List String))
    (chat_completion : String → String → Except String String) :
    (∃ answer, query vector_stores collection_name user_query
        similarity_search chat_completion
          = .pair answer "Get response successfully") ∨
    (∃ err, query vector_stores collection_name user_query
        similarity_search chat_completion = .errWrap "" [err]) := by
  unfold query querySteps
  by_cases h1 : ((if collection_name ∈ vector_stores then collection_name
      else "default") = "default" ∧ "default" ∉ vector_stores)
  · right
    exact ⟨"the collection not found and the `default` collection not exist, " ++
      "please create collection first", by simp only [if_pos h1]⟩
  · simp only [if_neg h1]
    cases hss : similarity_search
        (if collection_name ∈ vector_stores then collection_name else "default")
        user_query with
    | error e => right; exact ⟨e, by simp [hss, Except.bind]⟩
    | ok docs =>
      cases hcc : chat_completion (querySystemInstruction ++ "\n\n"
          ++ String.intercalate "\n\n" docs) user_query with
      | error e => right; exact ⟨e, by simp [hss, hcc, Except.bind]⟩
      | ok answer => left; exact ⟨answer, by simp [hss, hcc, Except.bind]⟩

/-! ## Upload controller (`src/server/service/upload_controller.py`) -/

/-- One incoming `UploadFile`: the original filename, the reported size in
bytes, and the successive chunk lengths `await file.read(10240)` yields,
each paired with the outcome of the wall-clock throttle comparison
`time() - start_update_time < 2` at that chunk (`true` = within the
2-second window, update skipped). -/
structure UFile where
  filename : String
  size : Nat
  chunks : List (Nat × Bool)

/-- The error `v1_upload` can raise from the progress computation:
`int((current_size / total_size) * 100)` divides by the combined size. -/
inductive UploadErr
  | divByZero
  deriving DecidableEq, Repr

/-- `total_size = sum(file.size for file in files)`. -/
def totalSize (files : List UFile) : Nat := files.foldl (fun a f => a + f.size) 0

/-- Combined length of a chunk list. -/
def sumLens (chunks : List (Nat × Bool)) : Nat :=
  chunks.foldr (fun c a => c.1 + a) 0

/-- The per-file `while chunk := await file.read(chunk_size)` loop of
`v1_upload`: stops at an empty chunk; otherwise the chunk is written,
`current_size` grows by its length, progress is recomputed as
`int(current_size / total_size * 100)` (integer floor; a ZeroDivisionError
when the combined size is zero), and the event is updated with status
"running" unless the throttle suppresses it.  Returns the final
`current_size`, the final `progress`, and the updates written. -/
def procChunks (total : Nat) : List (Nat × Bool) → Nat → Nat →
    Except UploadErr (Nat × Nat × List (String × Nat))
  | [], current, progress => .ok (current, progress, [])
  | (len, throttled) :: rest, current, progress =>
    if len = 0 then .ok (current, progress, [])
    else if total = 0 then .error .divByZero
    else
      let current' := current + len
      let progress' := current' * 100 / total
      match procChunks total rest current' progress' with
      | .error e => .error e
      | .ok (c, p, us) =>
        .ok (c, p, (if throttled then [] else [("running", progress')]) ++ us)

/-- The per-file iteration of `v1_upload`: after a file's chunks are
written, its hash and file row are recorded and one unthrottled update
with the current progress is written; after the last file the event is
marked "success" with progress 100. -/
def uploadGo (total : Nat) : List UFile → Nat → Nat →
    Except UploadErr (List (String × Nat))
  | [], _, _ => .ok [("success", 100)]
  | f :: fs, current, progress =>
    match procChunks total f.chunks current progress with
    | .error e => .error e
    | .ok (c, p, us) =>
      match uploadGo total fs c p with
      | .error e => .error e
      | .ok us' => .ok (us ++ [("running", p)] ++ us')

/-- `v1_upload(event_data, files, collection_name)` (upload_controller.py
lines 10-61), projected to the sequence of event updates it writes:
computes the combined reported size up front, then processes the files in
order with `current_size` and `progress` carried across files. -/
def v1_upload (files : List UFile) : Except UploadErr (List (String × Nat)) :=
  uploadGo (totalSize files) files 0 0

theorem div100_le_100 (a t : Nat) (ht : t ≠ 0) (h : a ≤ t) : a * 100 / t ≤ 100 := by
  calc a * 100 / t ≤ t * 100 / t :=
        Nat.div_le_div_right (Nat.mul_le_mul_right _ h)
    _ = 100 := by rw [Nat.mul_comm, Nat.mul_div_cancel _ (Nat.pos_of_ne_zero ht)]

theorem div100_mono (a b t : Nat) (h : a ≤ b) : a * 100 / t ≤ b * 100 / t :=
  Nat.div_le_div_right (Nat.mul_le_mul_right _ h)

theorem procChunks_spec (total : Nat) (chunks : List (Nat × Bool))
    (current progress : Nat)
    (ht : total ≠ 0)
    (hnz : ∀ c ∈ chunks, c.1 ≠ 0)
    (hle : current + sumLens chunks ≤ total)
    (hp : progress = current * 100 / total) :
    ∃ us, procChunks total chunks current progress
        = .ok (current + sumLens chunks,
               (current + sumLens chunks) * 100 / total, us) ∧
      us.Chain' (fun a b => a.2 ≤ b.2) ∧
      ∀ u ∈ us, progress ≤ u.2 ∧
        u.2 ≤ (current + sumLens chunks) * 100 / total := by
  induction chunks generalizing current progress with
  | nil =>
    refine ⟨[], ?_, by simp, by simp⟩
    simp [procChunks, sumLens, hp]
  | cons c rest ih =>
    obtain ⟨len, thr⟩ := c
    have hlen : len ≠ 0 := hnz (len, thr) (List.mem_cons_self _ _)
    have hsum : sumLens ((len, thr) :: rest) = len + sumLens rest := by
      simp [sumLens]
    rw [hsum] at hle ⊢
    have hle' : current + len + sumLens rest ≤ total := by omega
    obtain ⟨us, heq, hch, hbnd⟩ := ih (current + len)
      ((current + len) * 100 / total)
      (fun c hc => hnz c (List.mem_cons_of_mem _ hc)) hle' rfl
    have hfin : current + len + sumLens rest = current + (len + sumLens rest) := by
      omega
    have hprog : progress ≤ (current + len) * 100 / total := by
      rw [hp]; exact div100_mono _ _ _ (by omega)
    have hup : (current + len) * 100 / total
        ≤ (current + (len + sumLens rest)) * 100 / total :=
      div100_mono _ _ _ (by omega)
    refine ⟨(if thr then [] else [("running", (current + len) * 100 / total)]) ++ us,
      ?_, ?_, ?_⟩
    · rw [hfin] at heq
      simp [procChunks, hlen, ht, heq]
    · cases thr with
      | true => simpa using hch
      | false =>
        simp only [if_neg (by simp : ¬ (false = true)), List.singleton_append]
        rw [List.chain'_cons']
        refine ⟨?_, hch⟩
        intro y hy
        have hym : y ∈ us := List.mem_of_mem_head? hy
        exact (hbnd y hym).1
    · intro u hu
      rw [List.mem_append] at hu
      rcases hu with hu | hu
      · cases thr with
        | true => simp at hu
        | false =>
          simp at hu
          subst hu
          exact ⟨hprog, hup⟩
      · obtain ⟨h1, h2⟩ := hbnd u hu
        rw [← hfin]
        exact ⟨le_trans hprog h1, h2⟩

theorem uploadGo_spec (total : Nat) (files : List UFile) (current progress : Nat)
    (ht : total ≠ 0)
    (hf : ∀ f ∈ files, f.size = sumLens f.chunks ∧ ∀ c ∈ f.chunks, c.1 ≠ 0)
    (hle : current + (files.map UFile.size).sum ≤ total)
    (hp : progress = current * 100 / total) :
    ∃ us, uploadGo total files current progress = .ok us ∧
      us.Chain' (fun a b => a.2 ≤ b.2) ∧
      us.getLast? = some ("success", 100) ∧
      ∀ u ∈ us, progress ≤ u.2 ∧ u.2 ≤ 100 := by
  induction files generalizing current progress with
  | nil =>
    refine ⟨[("success", 100)], by simp [uploadGo], by simp, by simp, ?_⟩
    intro u hu
    simp at hu
    subst hu
    refine ⟨?_, le_refl _⟩
    rw [hp]
    exact div100_le_100 _ _ ht (by simp at hle; omega)
  | cons f fs ih =>
    obtain ⟨hsz, hnz⟩ := hf f (List.mem_cons_self _ _)
    have hle1 : current + sumLens f.chunks ≤ total := by
      simp at hle
      omega
    obtain ⟨us1, he1, hch1, hb1⟩ :=
      procChunks_spec total f.chunks current progress ht hnz hle1 hp
    have hle2 : (current + sumLens f.chunks) + (fs.map UFile.size).sum ≤ total := by
      simp at hle
      omega
    obtain ⟨us2, he2, hch2, hlast2, hb2⟩ :=
      ih (current + sumLens f.chunks)
        ((current + sumLens f.chunks) * 100 / total)
        (fun g hg => hf g (List.mem_cons_of_mem _ hg)) hle2 rfl
    have hfin100 : (current + sumLens f.chunks) * 100 / total ≤ 100 :=
      div100_le_100 _ _ ht (by omega)
    have hprog1 : progress ≤ (current + sumLens f.chunks) * 100 / total := by
      rw [hp]; exact div100_mono _ _ _ (by omega)
    have hus2ne : us2 ≠ [] := by
      intro h
      rw [h] at hlast2
      simp at hlast2
    refine ⟨us1 ++ [("running", (current + sumLens f.chunks) * 100 / total)] ++ us2,
      ?_, ?_, ?_, ?_⟩
    · simp [uploadGo, he1, he2]
    · rw [List.append_assoc]
      refine List.Chain'.append hch1 ?_ ?_
      · rw [List.singleton_append, List.chain'_cons']
        refine ⟨?_, hch2⟩
        intro y hy
        exact (hb2 y (List.mem_of_mem_head? hy)).1
      · intro x hx y hy
        obtain ⟨hmem, heq⟩ := List.mem_getLast?_eq_getLast hx
        have hx1 := (hb1 x (heq ▸ List.getLast_mem hmem)).2
        rw [List.singleton_append, List.head?_cons] at hy
        simp at hy
        subst hy
        exact hx1
    · rw [List.append_assoc,
        List.getLast?_append_of_ne_nil _ (by simp),
        List.getLast?_append_of_ne_nil _ hus2ne]
      exact hlast2
    · intro u hu
      rw [List.append_assoc, List.mem_append] at hu
      rcases hu with hu | hu
      · obtain ⟨h1, h2⟩ := hb1 u hu
        exact ⟨h1, le_trans h2 hfin100⟩
      · rw [List.singleton_append, List.mem_cons] at hu
        rcases hu with hu | hu
        · subst hu
          exact ⟨hprog1, hfin100⟩
        · obtain ⟨h1, h2⟩ := hb2 u hu
          exact ⟨le_trans hprog1 h1, h2⟩

theorem uploadGo_empty_chunks (total : Nat) (files : List UFile)
    (current progress : Nat)
    (hc : ∀ f ∈ files, f.chunks = [])
    (hp : progress ≤ 100) :
    ∃ us, uploadGo total files current progress = .ok us ∧
      us.Chain' (fun a b => a.2 ≤ b.2) ∧
      us.getLast? = some ("success", 100) ∧
      ∀ u ∈ us, progress ≤ u.2 ∧ u.2 ≤ 100 := by
  induction files with
  | nil =>
    refine ⟨[("success", 100)], by simp [uploadGo], by simp, by simp, ?_⟩
    intro u hu
    simp at hu
    subst hu
    exact ⟨hp, le_refl _⟩
  | cons f fs ih =>
    have h1 : f.chunks = [] := hc f (List.mem_cons_self _ _)
    obtain ⟨us, he, hch, hlast, hb⟩ := ih (fun g hg => hc g (List.mem_cons_of_mem _ hg))
    have husne : us ≠ [] := by
      intro h
      rw [h] at hlast
      simp at hlast
    refine ⟨("running", progress) :: us, ?_, ?_, ?_, ?_⟩
    · simp [uploadGo, h1, procChunks, he]
    · rw [List.chain'_cons']
      exact ⟨fun y hy => (hb y (List.mem_of_mem_head? hy)).1, hch⟩
    · rw [show ("running", progress) :: us = [("running", progress)] ++ us by rfl,
        List.getLast?_append_of_ne_nil _ husne]
      exact hlast
    · intro u hu
      rw [List.mem_cons] at hu
      rcases hu with hu | hu
      · subst hu
        exact ⟨le_refl _, hp⟩
      · exact hb u hu

theorem totalSize_eq_sum (files : List UFile) :
    totalSize files = (files.map UFile.size).sum := by
  have haux : ∀ (l : List UFile) (a : Nat),
      l.foldl (fun x f => x + f.size) a = a + (l.map UFile.size).sum := by
    intro l
    induction l with
    | nil => intro a; simp
    | cons f fs ih =>
      intro a
      simp [List.foldl_cons, ih]
      omega
  have := haux files 0
  simpa [totalSize] using this

theorem sumLens_zero_chunks (chunks : List (Nat × Bool))
    (h0 : sumLens chunks = 0) (hnz : ∀ c ∈ chunks, c.1 ≠ 0) : chunks = [] := by
  cases chunks with
  | nil => rfl
  | cons c rest =>
    exfalso
    have h1 : c.1 ≠ 0 := hnz c (List.mem_cons_self _ _)
    have h2 : sumLens (c :: rest) = c.1 + sumLens rest := by simp [sumLens]
    omega

theorem totalSize_pos (files : List UFile) (hne : files ≠ [])
    (hsz : ∀ f ∈ files, f.size ≠ 0) : 0 < totalSize files := by
  rw [totalSize_eq_sum]
  cases files with
  | nil => exact absurd rfl hne
  | cons f fs =>
    have h1 : f.size ≠ 0 := hsz f (List.mem_cons_self _ _)
    simp
    omega

/-- C7: for every upload over a non-empty file list (each file's reported
size being the total length of its non-empty stream chunks), the upload
controller succeeds, the sequence of progress values written to the event
over the upload's lifetime is monotonically non-decreasing, and the final
update sets status "success" with progress 100 — for every outcome of the
wall-clock throttle. -/
theorem v1_upload_monotone_success (files : List UFile)
    (hne : files ≠ [])
    (hf : ∀ f ∈ files, f.size = sumLens f.chunks ∧ ∀ c ∈ f.chunks, c.1 ≠ 0) :
    ∃ us, v1_upload files = .ok us ∧
      us.Chain' (fun a b => a.2 ≤ b.2) ∧
      us.getLast? = some ("success", 100) := by
  unfold v1_upload
  by_cases ht : totalSize files = 0
  · have hz : ∀ f ∈ files, f.size = 0 := by
      rw [totalSize_eq_sum] at ht
      intro f hfm
      exact List.sum_eq_zero_iff.mp ht _ (List.mem_map_of_mem _ hfm)
    have hc : ∀ f ∈ files, f.chunks = [] := by
      intro f hfm
      exact sumLens_zero_chunks f.chunks
        (by rw [← (hf f hfm).1]; exact hz f hfm) (hf f hfm).2
    obtain ⟨us, he, hch, hlast, _⟩ :=
      uploadGo_empty_chunks (totalSize files) files 0 0 hc (by omega)
    exact ⟨us, he, hch, hlast⟩
  · obtain ⟨us, he, hch, hlast, _⟩ :=
      uploadGo_spec (totalSize files) files 0 0 ht hf
        (by rw [← totalSize_eq_sum]; omega) (by simp)
    exact ⟨us, he, hch, hlast⟩

/-- Witness for C7 at a concrete two-file upload with a mixed throttle. -/
theorem v1_upload_monotone_success_witness :
    ∃ us, v1_upload [⟨"a.txt", 3, [(2, false), (1, true)]⟩,
        ⟨"b.md", 5, [(5, false)]⟩] = .ok us ∧
      us.Chain' (fun a b => a.2 ≤ b.2) ∧
      us.getLast? = some ("success", 100) :=
  v1_upload_monotone_success
    [⟨"a.txt", 3, [(2, false), (1, true)]⟩, ⟨"b.md", 5, [(5, false)]⟩]
    (List.cons_ne_nil _ _)
    (by intro f hf
        simp at hf
        rcases hf with hf | hf <;> (subst hf; constructor)
        · rfl
        · intro c hc
          simp at hc
          rcases hc with hc | hc <;> simp [hc]
        · rfl
        · intro c hc
          simp at hc
          simp [hc])

theorem procChunks_ok_of_total_pos (total : Nat) (chunks : List (Nat × Bool))
    (ht : total ≠ 0) :
    ∀ current progress, ∃ r, procChunks total chunks current progress = .ok r := by
  induction chunks with
  | nil => intro current progress; exact ⟨_, rfl⟩
  | cons c rest ih =>
    intro current progress
    obtain ⟨len, thr⟩ := c
    by_cases hlen : len = 0
    · exact ⟨(current, progress, []), by simp [procChunks, hlen]⟩
    · obtain ⟨⟨c1, p1, us⟩, hr⟩ := ih (current + len) ((current + len) * 100 / total)
      exact ⟨(c1, p1, (if thr then [] else
          [("running", (current + len) * 100 / total)]) ++ us),
        by simp [procChunks, hlen, ht, hr]⟩

theorem uploadGo_ok_of_total_pos (total : Nat) (files : List UFile)
    (ht : total ≠ 0) :
    ∀ current progress, ∃ us, uploadGo total files current progress = .ok us := by
  induction files with
  | nil => intro current progress; exact ⟨_, rfl⟩
  | cons f fs ih =>
    intro current progress
    obtain ⟨⟨c1, p1, us⟩, hr⟩ := procChunks_ok_of_total_pos total f.chunks ht
      current progress
    obtain ⟨us', hr'⟩ := ih c1 p1
    exact ⟨us ++ ("running", p1) :: us', by simp [uploadGo, hr, hr']⟩

/-- C10 (amended): for every invocation of the upload controller with at
least one attached file, each of nonzero reported size (the route rejects
zero-size attachments with 400, and its required multipart field supplies
at least one file), the combined reported size dividing the per-chunk
progress computation is positive, and the controller's run is total — the
division-by-zero error is unreachable. -/
theorem upload_progress_computation_total (files : List UFile)
    (hne : files ≠ []) (hsz : ∀ f ∈ files, f.size ≠ 0) :
    0 < totalSize files ∧ ∃ us, v1_upload files = .ok us := by
  have hpos : 0 < totalSize files := totalSize_pos files hne hsz
  exact ⟨hpos, uploadGo_ok_of_total_pos _ _ (by omega) 0 0⟩

/-- C10 counterexample: with an empty attachment list every attached file
vacuously has nonzero reported size, yet the combined size is 0, not
positive — the claim as stated fails at this input. -/
theorem upload_total_size_empty_counterexample :
    (∀ f ∈ ([] : List UFile), f.size ≠ 0) ∧
      ¬ (0 < totalSize ([] : List UFile)) := by
  constructor
  · intro f hf
    simp at hf
  · simp [totalSize]

/-- Witness for C10 at a concrete one-file upload. -/
theorem upload_progress_computation_total_witness :
    0 < totalSize [⟨"a.txt", 4, [(4, false)]⟩] ∧
      ∃ us, v1_upload [⟨"a.txt", 4, [(4, false)]⟩] = .ok us :=
  upload_progress_computation_total [⟨"a.txt", 4, [(4, false)]⟩]
    (List.cons_ne_nil _ _)
    (by intro f hf
        simp at hf
        simp [hf])

/-! ## Python values, errors, and the response envelope
(`src/share/types.py`, `src/utils/common.py`) -/

/-- A Python value, as carried in response `data` fields and passed to
`json.loads`. -/
inductive PyVal
  | none
  | pstr (s : String)
  | pint (n : Int)
  | plist (xs : List PyVal)
  | pdict (fs : List (String × PyVal))

/-- Python exceptions raised by the embedded code paths. -/
inductive PyErr
  | typeError
  | jsonDecodeError
  | valueError
  | attributeError (name : String)
  deriving DecidableEq, Repr

/-- `json.loads` applied to an arbitrary Python value (the body of
`unmarshall_json`): only `str` input is accepted — any other input type
raises `TypeError`; a malformed string raises a decode error. -/
def json_loads (v : PyVal) : Except PyErr Json :=
  match v with
  | .pstr s =>
    match unmarshall_json s with
    | some j => .ok j
    | Option.none => .error .jsonDecodeError
  | _ => .error .typeError

/-- `share/types.py::Response`: the uniform envelope
`{err_code, err_msg, data}`. -/
structure Response where
  err_code : Nat
  err_msg : String
  data : PyVal

/-! ## Collection-name validation

Modelled from the spec: `utils/validate.py` (imported by the router as
`validate.collection_name_rule`) is not present under `src/`.  The rule is
taken from spec §4.4: 3-63 characters; starts and ends with an
alphanumeric character; other characters alphanumeric, underscore, hyphen
or period (periods are implied by the consecutive-period clause); no two
consecutive periods; not a syntactically valid IPv4 address.  A violation
raises `ValueError` with a human-readable reason, modelled as
`Except String Unit`. -/

/-- Alphanumeric ASCII test. -/
def isAlphanum (c : Char) : Bool := c.isAlpha || c.isDigit

/-- Syntactic IPv4 test: four dot-separated runs of 1-3 digits, each with
value at most 255. -/
def isIPv4 (s : String) : Bool :=
  let parts := s.splitOn "."
  parts.length == 4 && parts.all (fun p =>
    decide (0 < p.length) && decide (p.length ≤ 3)
      && p.toList.all Char.isDigit
      && decide ((p.toList.foldl (fun a c => 10 * a + (c.toNat - 48)) 0) ≤ 255))

/-- Modelled from the spec: the §4.4 collection-name rule. -/
def collection_name_rule (name : String) : Except String Unit :=
  let cs := name.toList
  if cs.length < 3 ∨ 63 < cs.length then
    .error "The collection name must contain 3-63 characters"
  else if ¬ ((match cs.head? with
        | some c => isAlphanum c
        | Option.none => false) = true ∧
      (match cs.getLast? with
        | some c => isAlphanum c
        | Option.none => false) = true) then
    .error "The collection name must start and end with an alphanumeric character"
  else if ¬ (cs.all (fun c => isAlphanum c || c == '_' || c == '-' || c == '.')
      = true) then
    .error "The collection name contains an invalid character"
  else if ((cs.zip cs.tail).any (fun p => p.1 == '.' && p.2 == '.')) = true then
    .error "The collection name must not contain two consecutive periods"
  else if isIPv4 name = true then
    .error "The collection name must not be a valid IPv4 address"
  else
    .ok ()

/-! ## Route handlers (`src/server/api/v1/router.py`, `src/server/server.py`) -/

/-- GET `/id` (router.py lines 17-36): mint a trace id, reserve it in the
unused-id cache, 200 with the id and its age. -/
def get_trace_id (ulid : String) (ttl : Int) (cache : Finset String) :
    (Nat × Response) × Finset String :=
  ((200, ⟨0, "Success",
      .pdict [("trace_id", .pstr ulid), ("age", .pint ttl)]⟩),
    insert ulid cache)

/-- GET `/event/{event_id}` (router.py lines 39-82): general-cache hit →
200; else Event-Manager lookup → 200 (cache filled) or 404. -/
def get_event_route (cached : Option PyVal) (dbEvent : Option PyVal) :
    Nat × Response :=
  match cached with
  | some ev => (200, ⟨0, "Found event", ev⟩)
  | Option.none =>
    match dbEvent with
    | some ev => (200, ⟨0, "Found event", ev⟩)
    | Option.none => (404, ⟨404, "Not found", .none⟩)

/-- GET `/file/{collection_name}` (router.py lines 176-207): the File
Manager's `(result, err_msg)`; `if not result` treats both no-value and
the empty list as missing → 404, else 200. -/
def get_file_list_route (res : Option (List PyVal)) (msg : String) :
    Nat × Response :=
  let falsy := match res with
    | Option.none => true
    | some rows => rows.isEmpty
  let dataV := match res with
    | Option.none => PyVal.none
    | some rows => .plist rows
  if falsy then (404, ⟨404, msg, dataV⟩)
  else (200, ⟨0, msg, dataV⟩)

/-- GET `/file/{collection_name}/{file_id}` (router.py lines 210-241):
like the list route, for a single row. -/
def get_file_route (res : Option (List (String × PyVal))) (msg : String) :
    Nat × Response :=
  let falsy := match res with
    | Option.none => true
    | some row => row.isEmpty
  let dataV := match res with
    | Option.none => PyVal.none
    | some row => .pdict row
  if falsy then (404, ⟨404, msg, dataV⟩)
  else (200, ⟨0, msg, dataV⟩)

/-- POST `/chat` (router.py lines 244-276): 404 when the collection is not
loaded; otherwise `result, err_msg = query(...)` — on the query error
path that unpacks a one-element tuple into two names, raising
`ValueError`, so no envelope is produced there. -/
def chat_route (vector_stores : List String) (collection_name query_text : String)
    (similarity_search : String → String → Except String (List String))
    (chat_completion : String → String → Except String String) :
    Except PyErr (Nat × Response) :=
  if collection_name ∉ vector_stores then
    .ok (404, ⟨404, "I didn\x27t learn anything about the collection `"
      ++ collection_name ++ "`", .none⟩)
  else
    match query vector_stores collection_name query_text
        similarity_search chat_completion with
    | .pair answer msg => .ok (200, ⟨0, msg, .pstr answer⟩)
    | .errWrap _ _ => .error .valueError

/-- A simplified file row as returned by
`FileManager.get_file_list(show_simple=True)`. -/
structure SimpleFile where
  file_id : String
  file_name : String

/-- The Python dict a simplified file row is. -/
def SimpleFile.toPy (f : SimpleFile) : PyVal :=
  .pdict [("file_id", .pstr f.file_id), ("file_name", .pstr f.file_name)]

/-- POST `/learn` (router.py lines 279-351): reject 400 when the
collection exists and `re` is unset; fetch the simplified file list,
rejecting 404 when `not file_list`; build the collection metadata — its
`included` field is computed as `common.unmarshall_json(file_list)`, i.e.
`json.loads` applied to the Python list object (line 327); delegate to
`create_collection` (outcome abstracted as the `createRes` oracle), 400 on
no-info, else 200 with the info (whose stored `included` text the code
re-decodes in place before returning — unreachable, see the theorem). -/
def learn (collection_name tag author : String) (re : Bool)
    (vector_stores : List String)
    (file_list : Option (List SimpleFile)) (flMsg : String)
    (createRes : Option PyVal × String) :
    Except PyErr (Nat × Response) := do
  if re = false ∧ collection_name ∈ vector_stores then
    return (400, ⟨400, "Collection `" ++ collection_name
      ++ "` already exists\nYou must set `re=True` to relearn this collection",
      .none⟩)
  let flFalsy := match file_list with
    | Option.none => true
    | some l => l.isEmpty
  if flFalsy then
    return (404, ⟨404, flMsg,
      match file_list with
      | Option.none => PyVal.none
      | some l => .plist (l.map SimpleFile.toPy)⟩)
  let _included ← json_loads (.plist ((file_list.getD []).map SimpleFile.toPy))
  match createRes with
  | (Option.none, msg) => return (400, ⟨400, msg, .none⟩)
  | (some info, msg) => return (200, ⟨0, msg, info⟩)

/-- DELETE `/forget` (router.py lines 354-388): 404 when the collection is
not loaded; otherwise delete via the RAG engine and answer 200 on success
or 500 on failure — with `err_code` set to 0 on both of those paths. -/
def forget (collection_name : String) (vector_stores : List String)
    (deleteRes : Bool × String) : Nat × Response :=
  if collection_name ∉ vector_stores then
    (404, ⟨404, "I didn\x27t learned anything about the collection `"
      ++ collection_name ++ "`", .none⟩)
  else
    (if deleteRes.1 then 200 else 500, ⟨0, deleteRes.2, .none⟩)

/-- The global `RequestValidationError` handler (server.py lines 30-50):
a 400 response in the envelope with `err_code` 0, `err_msg`
"Validation error" and the validator's error list as data. -/
def validation_exception_handler (errs : List PyVal) : Nat × Response :=
  (400, ⟨0, "Validation error", .plist errs⟩)

/-- Result of the upload route: the response (or the error the upload
controller propagated) together with the unused-id reservation cache
afterwards. -/
structure UploadRouteResult where
  response : Except UploadErr (Nat × Response)
  unused_id_cache : Finset String

/-- The upload route body after the trace-id check (router.py lines
121-173): collection-name validation (400), zero-size attachment check
(400); then the supplied trace id is popped from the reservation cache (or
a fresh id minted), the upload event is created and persisted (effects on
the general cache and the two databases do not touch the reservation
cache), the Upload Controller runs, and 200 is returned with the event
payload and a message naming the trace id. -/
def uploadAfterChecks (attachments : List UFile) (collection_name : String)
    (trace_id : Option String) (unused_id_cache : Finset String)
    (fresh_id : String) : UploadRouteResult :=
  match collection_name_rule collection_name with
  | .error e => ⟨.ok (400, ⟨400, e, .none⟩), unused_id_cache⟩
  | .ok _ =>
    if attachments.any (fun a => a.size = 0) then
      ⟨.ok (400, ⟨400, "No file uploaded", .none⟩), unused_id_cache⟩
    else
      let cache' := match trace_id with
        | some t => unused_id_cache.erase t
        | Option.none => unused_id_cache
      let tid := match trace_id with
        | some t => t
        | Option.none => fresh_id
      match v1_upload attachments with
      | .error e => ⟨.error e, cache'⟩
      | .ok _ =>
        ⟨.ok (200, ⟨0, "The file(s) are uploaded successfully, id: " ++ tid,
          .pdict [("event_id", .pstr tid), ("type", .pstr "upload"),
            ("status", .pstr "pending"),
            ("detail", .pdict [("progress", .pint 0), ("included", .plist [])])]⟩),
          cache'⟩

/-- POST `/upload/` (router.py lines 85-173): reject 400 when a trace id
is supplied but not reserved in the unused-id cache; then run the
remaining checks and the upload. -/
def upload (attachments : List UFile) (collection_name : String)
    (trace_id : Option String) (unused_id_cache : Finset String)
    (fresh_id : String) : UploadRouteResult :=
  match trace_id with
  | some t =>
    if t ∉ unused_id_cache then
      ⟨.ok (400, ⟨400, "Invalid or expired trace_id", .none⟩), unused_id_cache⟩
    else
      uploadAfterChecks attachments collection_name trace_id unused_id_cache
        fresh_id
  | Option.none =>
    uploadAfterChecks attachments collection_name trace_id unused_id_cache
      fresh_id

/-- C9: for every upload request supplying a trace id currently reserved
in the unused-id cache: a 400 rejection for an invalid collection name or
a zero-size attachment leaves the reservation cache unchanged with the id
still reserved, and the id is removed from the cache exactly when both
remaining checks pass. -/
theorem upload_trace_id_consumption (attachments : List UFile)
    (collection_name : String) (t : String) (cache : Finset String)
    (fresh_id : String) (hin : t ∈ cache) :
    ((∃ e, collection_name_rule collection_name = .error e) →
      ∃ msg, upload attachments collection_name (some t) cache fresh_id
        = ⟨.ok (400, ⟨400, msg, .none⟩), cache⟩) ∧
    ((collection_name_rule collection_name = .ok () ∧
        attachments.any (fun a => a.size = 0) = true) →
      upload attachments collection_name (some t) cache fresh_id
        = ⟨.ok (400, ⟨400, "No file uploaded", .none⟩), cache⟩) ∧
    ((collection_name_rule collection_name = .ok () ∧
        attachments.any (fun a => a.size = 0) = false) →
      (upload attachments collection_name (some t) cache fresh_id).unused_id_cache
          = cache.erase t ∧
      t ∉ (upload attachments collection_name (some t) cache
          fresh_id).unused_id_cache) := by
  refine ⟨?_, ?_, ?_⟩
  · rintro ⟨e, he⟩
    exact ⟨e, by simp [upload, hin, uploadAfterChecks, he]⟩
  · rintro ⟨hok, hz⟩
    simp [upload, hin, uploadAfterChecks, hok, hz]
  · rintro ⟨hok, hz⟩
    have hc : (upload attachments collection_name (some t) cache
        fresh_id).unused_id_cache = cache.erase t := by
      cases hv : v1_upload attachments <;>
        simp [upload, uploadAfterChecks, hin, hok, hz, hv]
    exact ⟨hc, by rw [hc]; exact Finset.not_mem_erase t cache⟩

/-- Witness for C9 at a concrete request: the reserved id "01T", the valid
collection name "demo" and one non-empty attachment. -/
theorem upload_trace_id_consumption_witness :
    ((∃ e, collection_name_rule "demo" = .error e) →
      ∃ msg, upload [⟨"a.txt", 4, [(4, false)]⟩] "demo" (some "01T")
          {"01T"} "F1" = ⟨.ok (400, ⟨400, msg, .none⟩), {"01T"}⟩) ∧
    ((collection_name_rule "demo" = .ok () ∧
        ([⟨"a.txt", 4, [(4, false)]⟩] : List UFile).any (fun a => a.size = 0)
          = true) →
      upload [⟨"a.txt", 4, [(4, false)]⟩] "demo" (some "01T") {"01T"} "F1"
        = ⟨.ok (400, ⟨400, "No file uploaded", .none⟩), {"01T"}⟩) ∧
    ((collection_name_rule "demo" = .ok () ∧
        ([⟨"a.txt", 4, [(4, false)]⟩] : List UFile).any (fun a => a.size = 0)
          = false) →
      (upload [⟨"a.txt", 4, [(4, false)]⟩] "demo" (some "01T") {"01T"}
          "F1").unused_id_cache = ({"01T"} : Finset String).erase "01T" ∧
      "01T" ∉ (upload [⟨"a.txt", 4, [(4, false)]⟩] "demo" (some "01T") {"01T"}
          "F1").unused_id_cache) :=
  upload_trace_id_consumption [⟨"a.txt", 4, [(4, false)]⟩] "demo" "01T"
    {"01T"} "F1" (by simp)

/-- C2 (code defect): for every learn request over a collection whose file
table holds at least one row (non-empty simplified list) and which passes
the exists-without-`re` rejection, the handler raises `TypeError` while
building the collection metadata — its `included` field is
`unmarshall_json(file_list)`, i.e. `json.loads` applied to the Python list
object — before the RAG engine's create operation is reached, so the
claimed 200 response is never produced. -/
theorem learn_raises_type_error (collection_name tag author : String)
    (re : Bool) (vector_stores : List String)
    (fl : List SimpleFile) (hfl : fl ≠ []) (flMsg : String)
    (createRes : Option PyVal × String)
    (hpass : ¬ (re = false ∧ collection_name ∈ vector_stores)) :
    learn collection_name tag author re vector_stores (some fl) flMsg createRes
      = .error .typeError := by
  cases fl with
  | nil => exact absurd rfl hfl
  | cons f fs =>
    simp [learn, hpass, json_loads, Bind.bind, Except.bind, Pure.pure, Except.pure]

/-- Witness for C2 at a concrete relearn request with a one-row file
list. -/
theorem learn_raises_type_error_witness :
    learn "demo" "" "" true [] (some [⟨"01F", "a.txt"⟩])
        "Found the collection" (Option.none, "m") = .error .typeError :=
  learn_raises_type_error "demo" "" "" true [] [⟨"01F", "a.txt"⟩]
    (List.cons_ne_nil _ _) "Found the collection" (Option.none, "m")
    (by simp)

/-! ## The response-envelope invariant (C3) -/

/-- The route handlers and the global validation-error handler. -/
inductive Handler
  | traceId
  | getEvent
  | upload
  | fileList
  | fileMeta
  | chat
  | learn
  | forget
  | validation
  deriving DecidableEq, Repr

/-- The HTTP responses (status paired with envelope) a handler can
produce, over all inputs and oracle behaviours.  The upload, chat and
learn handlers return through `Except`: a raised error reaches FastAPI's
default 500 handling and produces no envelope, so only their `.ok`
results count as produced responses. -/
def Produced : Handler → (Nat × Response) → Prop
  | .traceId, p => ∃ ulid ttl cache, (get_trace_id ulid ttl cache).1 = p
  | .getEvent, p => ∃ c d, get_event_route c d = p
  | .upload, p => ∃ atts cn tid cache fid,
      (upload atts cn tid cache fid).response = .ok p
  | .fileList, p => ∃ res msg, get_file_list_route res msg = p
  | .fileMeta, p => ∃ res msg, get_file_route res msg = p
  | .chat, p => ∃ vs cn q ss cc, chat_route vs cn q ss cc = .ok p
  | .learn, p => ∃ cn tag author re vs fl msg cr,
      learn cn tag author re vs fl msg cr = .ok p
  | .forget, p => ∃ cn vs dr, forget cn vs dr = p
  | .validation, p => ∃ errs, validation_exception_handler errs = p

theorem uploadAfterChecks_response_ok (atts : List UFile) (cn : String)
    (tid : Option String) (cache : Finset String) (fid : String)
    (p : Nat × Response)
    (hu : (uploadAfterChecks atts cn tid cache fid).response = .ok p) :
    p.2.err_code = 0 ↔ p.1 = 200 := by
  unfold uploadAfterChecks at hu
  cases hrule : collection_name_rule cn with
  | error e =>
    rw [hrule] at hu
    simp at hu
    simp [← hu]
  | ok u =>
    rw [hrule] at hu
    by_cases hz : atts.any (fun a => a.size = 0)
    · simp [hz] at hu
      simp [← hu]
    · simp only [hz] at hu
      cases hv : v1_upload atts with
      | error e =>
        rw [hv] at hu
        simp at hu
      | ok us =>
        rw [hv] at hu
        simp at hu
        simp [← hu]

theorem learn_response_ok (cn tag author : String) (re : Bool)
    (vs : List String) (fl : Option (List SimpleFile)) (msg : String)
    (cr : Option PyVal × String) (p : Nat × Response)
    (hu : learn cn tag author re vs fl msg cr = .ok p) :
    p.2.err_code = 0 ↔ p.1 = 200 := by
  unfold learn at hu
  by_cases hc : re = false ∧ cn ∈ vs
  · simp [hc, Pure.pure, Except.pure] at hu
    simp [← hu]
  · cases fl with
    | none =>
      simp [hc, Pure.pure, Except.pure, Bind.bind, Except.bind] at hu
      simp [← hu]
    | some l =>
      cases l with
      | nil =>
        simp [hc, Pure.pure, Except.pure, Bind.bind, Except.bind] at hu
        simp [← hu]
      | cons f fs =>
        simp [hc, json_loads, Pure.pure, Except.pure, Bind.bind,
          Except.bind] at hu

/-- C3 counterexample: the claim that every produced response has
`err_code = 0` exactly when its HTTP status is 200 is false — the global
validation-error handler produces a 400 response whose `err_code` is 0. -/
theorem envelope_err_code_counterexample :
    ¬ (∀ h p, Produced h p → (p.2.err_code = 0 ↔ p.1 = 200)) := by
  intro hall
  have h := hall .validation (400, ⟨0, "Validation error", .plist []⟩)
    ⟨[], rfl⟩
  have h400 : (400 : Nat) = 200 := h.mp rfl
  simp at h400

/-- C3 (amended): every response produced by the route handlers or the
validation-error handler has `err_code = 0` exactly when its status is
200, with two exceptions that carry `err_code` 0 on a failure status: the
validation handler's 400 response and the forget handler's
deletion-failure 500 response. -/
theorem envelope_err_code_spec (h : Handler) (p : Nat × Response)
    (hp : Produced h p) :
    (p.2.err_code = 0 ↔ p.1 = 200) ∨
    (h = .validation ∧ p.1 = 400 ∧ p.2.err_code = 0) ∨
    (h = .forget ∧ p.1 = 500 ∧ p.2.err_code = 0) := by
  cases h with
  | traceId =>
    obtain ⟨ulid, ttl, cache, hu⟩ := hp
    left
    simp [← hu, get_trace_id]
  | getEvent =>
    obtain ⟨c, d, hu⟩ := hp
    left
    cases c <;> cases d <;> simp [← hu, get_event_route]
  | upload =>
    obtain ⟨atts, cn, tid, cache, fid, hu⟩ := hp
    left
    unfold upload at hu
    cases tid with
    | none => exact uploadAfterChecks_response_ok _ _ _ _ _ _ hu
    | some t =>
      by_cases ht : t ∉ cache
      · simp [ht] at hu
        simp [← hu]
      · simp only [ht, if_false] at hu
        exact uploadAfterChecks_response_ok _ _ _ _ _ _ hu
  | fileList =>
    obtain ⟨res, msg, hu⟩ := hp
    left
    cases res with
    | none => simp [← hu, get_file_list_route]
    | some rows =>
      by_cases hr : rows.isEmpty <;> simp [← hu, get_file_list_route, hr]
  | fileMeta =>
    obtain ⟨res, msg, hu⟩ := hp
    left
    cases res with
    | none => simp [← hu, get_file_route]
    | some row =>
      by_cases hr : row.isEmpty <;> simp [← hu, get_file_route, hr]
  | chat =>
    obtain ⟨vs, cn, q, ss, cc, hu⟩ := hp
    left
    unfold chat_route at hu
    by_cases hm : cn ∉ vs
    · simp [hm] at hu
      simp [← hu]
    · simp only [hm, if_false] at hu
      cases hq : query vs cn q ss cc with
      | pair a m =>
        rw [hq] at hu
        simp at hu
        simp [← hu]
      | errWrap f es =>
        rw [hq] at hu
        simp at hu
  | learn =>
    obtain ⟨cn, tag, author, re, vs, fl, msg, cr, hu⟩ := hp
    left
    exact learn_response_ok _ _ _ _ _ _ _ _ _ hu
  | forget =>
    obtain ⟨cn, vs, dr, hu⟩ := hp
    unfold forget at hu
    by_cases hm : cn ∉ vs
    · left
      simp [hm] at hu
      simp [← hu]
    · simp only [hm, if_false] at hu
      by_cases hd : dr.1
      · left
        simp [hd] at hu
        simp [← hu]
      · right; right
        simp [hd] at hu
        simp [← hu]
  | validation =>
    obtain ⟨errs, hu⟩ := hp
    right; left
    simp [← hu, validation_exception_handler]

/-- Witness for C3 (amended) at the forget handler's failure response. -/
theorem envelope_err_code_spec_witness :
    (((500 : Nat), (⟨0, "boom", .none⟩ : Response)).2.err_code = 0 ↔
        ((500 : Nat), (⟨0, "boom", .none⟩ : Response)).1 = 200) ∨
    (Handler.forget = .validation ∧
      ((500 : Nat), (⟨0, "boom", .none⟩ : Response)).1 = 400 ∧
      ((500 : Nat), (⟨0, "boom", .none⟩ : Response)).2.err_code = 0) ∨
    (Handler.forget = .forget ∧
      ((500 : Nat), (⟨0, "boom", .none⟩ : Response)).1 = 500 ∧
      ((500 : Nat), (⟨0, "boom", .none⟩ : Response)).2.err_code = 0) :=
  envelope_err_code_spec .forget (500, ⟨0, "boom", .none⟩)
    ⟨"demo", ["demo"], (false, "boom"), by simp [forget]⟩

/-! ## Configuration schema (`src/share/types.py`) and process entrypoint
(`src/main.py`) -/

/-- `GeneralConfig` (types.py lines 58-60): the timezone offset (a float
in the source; no arithmetic is performed on it in the entrypoint, so it
is carried as an opaque integer-valued offset here). -/
structure GeneralConfig where
  timezone : Int

/-- `GeneralCacheConfig` (types.py lines 69-72). -/
structure GeneralCacheConfig where
  maxsize : Nat
  ttl : Int

/-- `UnusedIDConfig` (types.py lines 75-78). -/
structure UnusedIDConfig where
  maxsize : Nat
  ttl : Int

/-- `CacheConfig` (types.py lines 63-66). -/
structure CacheConfig where
  general : GeneralCacheConfig
  unused_id : UnusedIDConfig

/-- `DBConfigEvent` (types.py lines 87-89). -/
structure DBConfigEvent where
  path : String

/-- `DBConfigFile` (types.py lines 92-94). -/
structure DBConfigFile where
  path : String

/-- `DBConfig` (types.py lines 81-84): a slots dataclass with exactly the
fields `event` and `file` — there is no `vector` field. -/
structure DBConfig where
  event : DBConfigEvent
  file : DBConfigFile

/-- `OpenAIConfig` (types.py lines 97-101): note `db_dir`, the documented
home of the vector-database directory. -/
structure OpenAIConfig where
  api_key : String
  base_url : String
  db_dir : String

/-- `ServerConfig` (types.py lines 104-108). -/
structure ServerConfig where
  host : String
  port : Nat
  workers : Int

/-- `Config` (types.py lines 41-55), restricted to the tables the
entrypoint reads (`upload` and `middleware` are consumed only by the
router and server bootstrap). -/
structure Config where
  general : GeneralConfig
  openai : OpenAIConfig
  server : ServerConfig
  db : DBConfig
  cache : CacheConfig

/-- A value of an attribute of the `DBConfig` dataclass. -/
inductive DBConfigAttr
  | event (v : DBConfigEvent)
  | file (v : DBConfigFile)

/-- Python attribute lookup on a `DBConfig` instance: a slots dataclass
answers exactly its declared fields (`event`, `file`) and raises
`AttributeError` for any other name. -/
def dbConfigGetattr (c : DBConfig) (name : String) : Except PyErr DBConfigAttr :=
  if name = "event" then .ok (.event c.event)
  else if name = "file" then .ok (.file c.file)
  else .error (.attributeError name)

/-- The initialization steps of `src/main.py`, in source order. -/
inductive InitStep
  | configLoaded
  | loggerConstructed
  | ragConstructed
  | vectorStoreInit
  | eventManagerInit
  | fileManagerInit
  | generalCacheInit
  | unusedIdCacheInit
  | serverRun
  deriving DecidableEq, Repr

/-- `src/main.py` module initialization and run (lines 6-39): the
configuration is loaded and the logger constructed; then
`RAGSystem(openai_api_key=CONFIG.openai.api_key, db_dir=CONFIG.db.vector.dir)`
evaluates the attribute access `CONFIG.db.vector` (the `.dir` of its
result would supply the constructor's `db_dir`); then
`init_vector_store()`, `EventManager(CONFIG.db.event.path)`,
`FileManager(CONFIG.db.file.path)`, the general and unused-id TTL caches
from the cache configuration, and finally the server is run. -/
def main_init (cfg : Config) : Except PyErr (List InitStep) := do
  let s0 := [InitStep.configLoaded, InitStep.loggerConstructed]
  let _vector ← dbConfigGetattr cfg.db "vector"
  let s1 := s0 ++ [InitStep.ragConstructed, InitStep.vectorStoreInit]
  let _eventPath := cfg.db.event.path
  let _filePath := cfg.db.file.path
  let s2 := s1 ++ [InitStep.eventManagerInit, InitStep.fileManagerInit]
  let _g := cfg.cache.general
  let _u := cfg.cache.unused_id
  let s3 := s2 ++ [InitStep.generalCacheInit, InitStep.unusedIdCacheInit]
  pure (s3 ++ [InitStep.serverRun])

/-- C1 (code defect): for every configuration conforming to the documented
schema (`DBConfig` holds exactly `event` and `file`; the vector-database
directory lives at `openai.db_dir`), the entrypoint raises
`AttributeError` evaluating `CONFIG.db.vector` and never constructs the
RAG engine — the claimed initialization sequence through to running the
server is never completed. -/
theorem main_init_attribute_error (cfg : Config) :
    main_init cfg = .error (.attributeError "vector") := rfl
